import Mathlib

/-!
# MPU6050 sampling task (`main/main.c`)

A shallow embedding of the sampling loop of `mpu6050_task`: the raw register
read `mpu6050_read_raw`, the unit conversion, the call into the Fusion AHRS
library, and the three 4-byte UART frames (pitch, roll, click).

* C `int` / `int16_t` values are mathematical integers, wrapped explicitly by
  `toInt32` / `toInt16` where the C code converts or may overflow.
* The UART output is the list of bytes handed to `uart_putc_raw`, in order.
* The single-precision arithmetic and the Fusion library (`Fusion.h`) are not
  part of `main.c`; they are the fields of the parameter `Platform`.
-/

namespace Mpu6050

/-! ## C integer conversions -/

/-- Conversion of an integer to `int16_t`: two's-complement wrap to 16 bits. -/
def toInt16 (z : Int) : Int := (z + 32768) % 65536 - 32768

/-- Conversion of an integer to `int` (32 bits): two's-complement wrap. -/
def toInt32 (z : Int) : Int := (z + 2147483648) % 4294967296 - 2147483648

/-- The C conversion `(int) f` of a finite float whose value is `q`: the
fractional part is discarded (division of numerator by denominator rounding
toward zero). -/
def castInt (q : ℚ) : Int := Int.tdiv q.num q.den

/-! ## UART -/

/-- The byte put on the wire by `uart_putc_raw(UART_ID, c)`: the argument is
converted to `char` and written to the 8-bit data register. -/
def uart_putc_raw (c : Int) : Nat := (c % 256).toNat

/-! ## I2C reads -/

/-- One register access of `mpu6050_read_raw`: the value returned by
`i2c_write_blocking`, the value returned by `i2c_read_blocking` (number of
bytes transferred, or a negative error code), and the contents of the local
`buffer` after the read. -/
structure I2cTransfer where
  write_ret : Int
  read_ret : Int
  buffer : Nat → Nat

/-- The three register accesses of one call of `mpu6050_read_raw`, in order:
acceleration (0x3B), gyro (0x43), temperature (0x41). -/
structure BusReads where
  accel : I2cTransfer
  gyro : I2cTransfer
  temp : I2cTransfer

/-- A register access failed: one of its two bus calls returned an error. -/
def I2cTransfer.failed (t : I2cTransfer) : Prop := t.write_ret < 0 ∨ t.read_ret < 0

/-- The sensor read of a period failed: some register access failed. -/
def BusReads.failed (b : BusReads) : Prop :=
  b.accel.failed ∨ b.gyro.failed ∨ b.temp.failed

/-- An `int16_t x[3]` array. -/
structure Int16x3 where
  a0 : Int
  a1 : Int
  a2 : Int

/-- The out-parameters of `mpu6050_read_raw`. -/
structure RawSample where
  accel : Int16x3
  gyro : Int16x3
  temp : Int

/-- The expression `buffer[i * 2] << 8 | buffer[(i * 2) + 1]` stored into an
`int16_t`; `buffer` holds `uint8_t`. -/
def word16 (buffer : Nat → Nat) (i : Nat) : Int :=
  toInt16 (((buffer (i * 2) % 256) <<< 8 ||| (buffer (i * 2 + 1) % 256) : Nat) : Int)

/-- `mpu6050_read_raw`: the return values of the bus calls are not looked at;
the three arrays are filled from whatever `buffer` holds after each read. -/
def mpu6050_read_raw (bus : BusReads) : RawSample :=
  { accel := ⟨word16 bus.accel.buffer 0, word16 bus.accel.buffer 1, word16 bus.accel.buffer 2⟩
    gyro := ⟨word16 bus.gyro.buffer 0, word16 bus.gyro.buffer 1, word16 bus.gyro.buffer 2⟩
    temp := word16 bus.temp.buffer 0 }

/-! ## Floats and the Fusion library -/

/-- A `FusionVector`. -/
structure FusionVector (F : Type) where
  x : F
  y : F
  z : F

/-- A `FusionEuler`. -/
structure FusionEuler (F : Type) where
  roll : F
  pitch : F
  yaw : F

/-- What `mpu6050_task` uses and `main.c` does not define: single-precision
floats `F` (conversion from `int`, division, the three literals, and the value
of a finite float as a rational), and the Fusion AHRS with state `A` and
quaternions `Q`. -/
structure Platform (F Q A : Type) where
  ofInt : Int → F
  fdiv : F → F → F
  lit131 : F
  lit16384 : F
  SAMPLE_PERIOD : F
  val : F → ℚ
  FusionAhrsInitialise : A
  FusionAhrsUpdateNoMagnetometer : A → FusionVector F → FusionVector F → F → A
  FusionAhrsGetQuaternion : A → Q
  FusionQuaternionToEuler : Q → FusionEuler F

/-! ## The loop body of `mpu6050_task` -/

/-- Lines 110-113: the four `uart_putc_raw` calls of the X axis (pitch). -/
def pitch_frame (x : Int) : List Nat :=
  [uart_putc_raw 0, uart_putc_raw (Int.land (x >>> (8 : Nat)) 0xFF), uart_putc_raw (Int.land x 0xFF),
    uart_putc_raw (-1)]

/-- Lines 118-121: the four `uart_putc_raw` calls of the Y axis (roll). -/
def roll_frame (y : Int) : List Nat :=
  [uart_putc_raw 1, uart_putc_raw (Int.land (y >>> (8 : Nat)) 0xFF), uart_putc_raw (Int.land y 0xFF),
    uart_putc_raw (-1)]

/-- Lines 127-133: `acc` from `acceleration[1]`; the product `-1 * acceleration[1]`
is computed in `int`. -/
def acc_of (a1 : Int) : Int :=
  if a1 < 0 then toInt32 (-1 * a1) else a1

/-- Lines 136-142: the bytes written by the click branch. -/
def click_frame (acc : Int) : List Nat :=
  if acc > 17000 then
    [uart_putc_raw 2, uart_putc_raw 0, uart_putc_raw (Int.land (acc >>> (8 : Nat)) 0xFF),
      uart_putc_raw (-1)]
  else []

/-- The gyroscope vector of lines 90-94. -/
def gyroscope_of {F Q A : Type} (P : Platform F Q A) (gyro : Int16x3) : FusionVector F :=
  { x := P.fdiv (P.ofInt gyro.a0) P.lit131
    y := P.fdiv (P.ofInt gyro.a1) P.lit131
    z := P.fdiv (P.ofInt gyro.a2) P.lit131 }

/-- The accelerometer vector of lines 96-100. -/
def accelerometer_of {F Q A : Type} (P : Platform F Q A) (acceleration : Int16x3) :
    FusionVector F :=
  { x := P.fdiv (P.ofInt acceleration.a0) P.lit16384
    y := P.fdiv (P.ofInt acceleration.a1) P.lit16384
    z := P.fdiv (P.ofInt acceleration.a2) P.lit16384 }

/-- Lines 89-142, after the read: the new estimator state and the bytes written. -/
def mpu6050_task_body {F Q A : Type} (P : Platform F Q A) (ahrs : A) (raw : RawSample) :
    A × List Nat :=
  let gyroscope := gyroscope_of P raw.gyro
  let accelerometer := accelerometer_of P raw.accel
  let ahrs1 := P.FusionAhrsUpdateNoMagnetometer ahrs gyroscope accelerometer P.SAMPLE_PERIOD
  let euler := P.FusionQuaternionToEuler (P.FusionAhrsGetQuaternion ahrs1)
  let x := toInt32 (castInt (P.val euler.pitch) * (-1))
  let y := toInt32 (castInt (P.val euler.roll) * (-1))
  let acc := acc_of raw.accel.a1
  (ahrs1, pitch_frame x ++ roll_frame y ++ click_frame acc)

/-- The estimator state after the update of line 103. -/
def ahrs_after {F Q A : Type} (P : Platform F Q A) (ahrs : A) (raw : RawSample) : A :=
  P.FusionAhrsUpdateNoMagnetometer ahrs (gyroscope_of P raw.gyro) (accelerometer_of P raw.accel)
    P.SAMPLE_PERIOD

/-- The Euler angles of line 106, as rational values `(pitch, roll)`. -/
def euler_after {F Q A : Type} (P : Platform F Q A) (ahrs : A) (raw : RawSample) : ℚ × ℚ :=
  (P.val (P.FusionQuaternionToEuler (P.FusionAhrsGetQuaternion (ahrs_after P ahrs raw))).pitch,
   P.val (P.FusionQuaternionToEuler (P.FusionAhrsGetQuaternion (ahrs_after P ahrs raw))).roll)

/-- The `int x` of line 109. -/
def x_of {F Q A : Type} (P : Platform F Q A) (ahrs : A) (raw : RawSample) : Int :=
  toInt32 (castInt (euler_after P ahrs raw).1 * (-1))

/-- The `int y` of line 117. -/
def y_of {F Q A : Type} (P : Platform F Q A) (ahrs : A) (raw : RawSample) : Int :=
  toInt32 (castInt (euler_after P ahrs raw).2 * (-1))

/-- One pass of the `while(1)` loop: read, then the body. -/
def mpu6050_task_iteration {F Q A : Type} (P : Platform F Q A) (ahrs : A) (bus : BusReads) :
    A × List Nat :=
  mpu6050_task_body P ahrs (mpu6050_read_raw bus)

/-- The task from start: `FusionAhrsInitialise`, then one pass per element of
`buses`; the bytes of all passes in order. -/
def mpu6050_task {F Q A : Type} (P : Platform F Q A) (buses : List BusReads) : A × List Nat :=
  buses.foldl
    (fun st bus =>
      let r := mpu6050_task_iteration P st.1 bus
      (r.1, st.2 ++ r.2))
    (P.FusionAhrsInitialise, [])

/-! ## Concrete inputs used to run the definitions -/

/-- A buffer holding the given bytes (zero beyond them). -/
def bufferOf (bytes : List Nat) : Nat → Nat := fun i => bytes.getD i 0

/-- An exact-arithmetic platform for running the loop on concrete samples:
floats are rationals, and in place of the estimator there is a probe whose
state counts the updates run and which reports the fixed angles `e`. -/
def probePlatform (e : FusionEuler ℚ) : Platform ℚ Nat Nat :=
  { ofInt := fun z => (z : ℚ)
    fdiv := fun a b => a / b
    lit131 := 131
    lit16384 := 16384
    SAMPLE_PERIOD := 1 / 100
    val := fun q => q
    FusionAhrsInitialise := 0
    FusionAhrsUpdateNoMagnetometer := fun n _ _ _ => n + 1
    FusionAhrsGetQuaternion := fun n => n
    FusionQuaternionToEuler := fun _ => e }

/-- A period in which every bus call reports an error (`PICO_ERROR_GENERIC`)
and `buffer` is left holding zeros. -/
def failedBus : BusReads :=
  { accel := ⟨-1, -1, bufferOf []⟩
    gyro := ⟨-1, -1, bufferOf []⟩
    temp := ⟨-1, -1, bufferOf []⟩ }

/-! ## Single-precision arithmetic (IEEE 754 binary32) -/

/-- A rational of the form `m / 2 ^ k`. -/
def IsDyadic (q : ℚ) : Prop := ∃ (m : Int) (k : Nat), q * 2 ^ k = m

/-- A value of a finite binary32 float: a significand of at most 24 bits and
an exponent between -149 and 104. -/
def IsBinary32 (q : ℚ) : Prop :=
  ∃ m e : Int, |m| < 2 ^ 24 ∧ -149 ≤ e ∧ e ≤ 104 ∧ q = m * (2 : ℚ) ^ e

/-- The three components of an `int16_t x[3]` are inside the `int16_t` range. -/
def Int16x3.InRange (v : Int16x3) : Prop :=
  (-32768 ≤ v.a0 ∧ v.a0 ≤ 32767) ∧ (-32768 ≤ v.a1 ∧ v.a1 ≤ 32767) ∧
    (-32768 ≤ v.a2 ∧ v.a2 ≤ 32767)

/-- What lines 90-100 rely on from the `float` type of the target, as IEEE 754
binary32 with round-to-nearest provides it: an `int16_t` converts exactly; the
literals `131.0f` and `16384.0f` have their values; every finite float is a
dyadic rational; a quotient that is a binary32 value is returned exactly; and
a quotient of magnitude between the least normal and the greatest finite
binary32 value is returned with relative error at most
`2 ^ (-24)`. -/
def Platform.Binary32Arith {F Q A : Type} (P : Platform F Q A) : Prop :=
  (∀ z : Int, -32768 ≤ z → z ≤ 32767 → P.val (P.ofInt z) = z) ∧
  P.val P.lit131 = 131 ∧
  P.val P.lit16384 = 16384 ∧
  (∀ f : F, IsDyadic (P.val f)) ∧
  (∀ a b : F, P.val b ≠ 0 → IsBinary32 (P.val a / P.val b) →
    P.val (P.fdiv a b) = P.val a / P.val b) ∧
  (∀ a b : F, P.val b ≠ 0 → (2 : ℚ) ^ (-126 : Int) ≤ |P.val a / P.val b| →
    |P.val a / P.val b| ≤ (2 ^ 24 - 1) * (2 : ℚ) ^ (104 : Int) →
    |P.val (P.fdiv a b) - P.val a / P.val b| ≤ |P.val a / P.val b| / 2 ^ 24)

/-- Rounding of a rational to the nearest integer, ties to even. -/
def roundHalfEven (x : ℚ) : Int :=
  if x - ⌊x⌋ < 1 / 2 then ⌊x⌋
  else if 1 / 2 < x - ⌊x⌋ then ⌊x⌋ + 1
  else if ⌊x⌋ % 2 = 0 then ⌊x⌋ else ⌊x⌋ + 1

/-- Rounding of a rational to binary32, round-to-nearest-even, as a pair
(significand, exponent): 24 significant bits, the exponent not below -149
(subnormals); overflow to infinity is not modelled. -/
def round32 (q : ℚ) : Int × Int :=
  (roundHalfEven (q / 2 ^ max (Int.log 2 |q| - 23) (-149)), max (Int.log 2 |q| - 23) (-149))

/-- The value of a (significand, exponent) pair. -/
def val32 (f : Int × Int) : ℚ := f.1 * 2 ^ f.2

/-- A platform whose floats are (significand, exponent) pairs with binary32
rounding of conversions and quotients; in place of the estimator there is the
probe that counts the updates run and reports zero angles. -/
def binary32Platform : Platform (Int × Int) Nat Nat :=
  { ofInt := fun z => round32 z
    fdiv := fun a b => round32 (val32 a / val32 b)
    lit131 := (131, 0)
    lit16384 := (16384, 0)
    SAMPLE_PERIOD := round32 (1 / 100)
    val := val32
    FusionAhrsInitialise := 0
    FusionAhrsUpdateNoMagnetometer := fun n _ _ _ => n + 1
    FusionAhrsGetQuaternion := fun n => n
    FusionQuaternionToEuler := fun _ => ⟨(0, 0), (0, 0), (0, 0)⟩ }

/-! ## The external decoder, as the specification words it -/

/-- Reading two bytes as a big-endian 16-bit two's-complement number. -/
def decode_be16 (hi lo : Nat) : Int :=
  if hi * 256 + lo ≥ 32768 then ((hi * 256 + lo : Nat) : Int) - 65536
  else ((hi * 256 + lo : Nat) : Int)

/-- The value an external decoder recovers from a 4-byte frame: bytes 1 and 2
read as a big-endian 16-bit two's-complement number. -/
def decode_frame (frame : List Nat) : Int :=
  decode_be16 (frame.getD 1 0) (frame.getD 2 0)

end Mpu6050

namespace Mpu6050

/-! ## Bit operations as division and remainder -/

theorem land_255_eq_emod (v : Int) : Int.land v 255 = v % 256 := by
  cases v with
  | ofNat n =>
    show ((n &&& 255 : Nat) : Int) = (n : Int) % 256
    have hn := Nat.and_pow_two_sub_one_eq_mod n 8
    norm_num at hn
    rw [hn]; norm_cast
  | negSucc n =>
    show ((Nat.ldiff 255 n : Nat) : Int) = Int.negSucc n % 256
    have h : Nat.ldiff 255 n = 255 - n % 256 := by
      apply Nat.eq_of_testBit_eq
      intro i
      rw [Nat.testBit_ldiff]
      have h1 : (255 : Nat) = 2 ^ 8 - 1 := by norm_num
      have h2 : 255 - n % 256 = 2 ^ 8 - (n % 2 ^ 8 + 1) := by norm_num; omega
      rw [h2, Nat.testBit_two_pow_sub_succ (Nat.mod_lt _ (by norm_num)), h1,
        Nat.testBit_two_pow_sub_one, Nat.testBit_mod_two_pow]
      cases decide (i < 8) <;> simp
    rw [h, Int.negSucc_eq]
    omega

theorem shiftRight_8_eq_ediv (v : Int) : v >>> (8 : Nat) = v / 256 := by
  rw [Int.shiftRight_eq_div_pow]; norm_num

theorem uart_putc_raw_byte (v : Int) : uart_putc_raw (v % 256) = (v % 256).toNat := by
  unfold uart_putc_raw
  rw [Int.emod_emod_of_dvd v (dvd_refl 256)]

theorem high_byte_eq (v : Int) :
    uart_putc_raw (Int.land (v >>> (8 : Nat)) 0xFF) = (v % 65536 / 256).toNat := by
  rw [land_255_eq_emod, shiftRight_8_eq_ediv, uart_putc_raw_byte]
  congr 1
  omega

theorem low_byte_eq (v : Int) : uart_putc_raw (Int.land v 0xFF) = (v % 256).toNat := by
  rw [land_255_eq_emod, uart_putc_raw_byte]

theorem pitch_frame_bytes (v : Int) :
    pitch_frame v = [0, (v % 65536 / 256).toNat, (v % 256).toNat, 255] := by
  unfold pitch_frame
  rw [high_byte_eq, low_byte_eq]
  rfl

theorem roll_frame_bytes (v : Int) :
    roll_frame v = [1, (v % 65536 / 256).toNat, (v % 256).toNat, 255] := by
  unfold roll_frame
  rw [high_byte_eq, low_byte_eq]
  rfl

theorem decode_be16_bytes (v : Int) :
    decode_be16 (v % 65536 / 256).toNat (v % 256).toNat = toInt16 v := by
  unfold decode_be16 toInt16
  split <;> omega

/-! ## Frame layout and round trip -/

/-- C1: the frame written for a value `v` on channel 0 (pitch, `x`) or channel 1
(roll, `y`) is the four bytes channel id, bits 15..8 of the 16-bit
two's-complement truncation of `v`, bits 7..0 of `v`, `0xFF`; for `v = -300`
on channel 0 the bytes are `00 FE D4 FF`. -/
theorem frame_layout (v : Int) :
    pitch_frame v = [0, (v % 65536 / 256).toNat, (v % 256).toNat, 0xFF] ∧
    roll_frame v = [1, (v % 65536 / 256).toNat, (v % 256).toNat, 0xFF] ∧
    pitch_frame (-300) = [0x00, 0xFE, 0xD4, 0xFF] := by
  refine ⟨pitch_frame_bytes v, roll_frame_bytes v, ?_⟩
  rw [pitch_frame_bytes]
  decide

/-- C2: reading bytes 1 and 2 of the pitch or roll frame of `v` as a big-endian
16-bit two's-complement number gives `v` wrapped into the signed 16-bit range;
this is `v` itself exactly when `-32768 <= v <= 32767`, and differs from `v`
outside that range. -/
theorem frame_round_trip (v : Int) :
    decode_frame (pitch_frame v) = toInt16 v ∧
    decode_frame (roll_frame v) = toInt16 v ∧
    -32768 ≤ toInt16 v ∧ toInt16 v ≤ 32767 ∧ (toInt16 v - v) % 65536 = 0 ∧
    (decode_frame (pitch_frame v) = v ↔ -32768 ≤ v ∧ v ≤ 32767) ∧
    (decode_frame (roll_frame v) = v ↔ -32768 ≤ v ∧ v ≤ 32767) := by
  have hp : decode_frame (pitch_frame v) = toInt16 v := by
    rw [pitch_frame_bytes]
    exact decode_be16_bytes v
  have hr : decode_frame (roll_frame v) = toInt16 v := by
    rw [roll_frame_bytes]
    exact decode_be16_bytes v
  rw [hp, hr]
  unfold toInt16
  refine ⟨rfl, rfl, ?_, ?_, ?_, ?_, ?_⟩ <;> omega

/-! ## The loop body -/

theorem castInt_eq_floor_ceil (q : ℚ) : castInt q = if 0 ≤ q then ⌊q⌋ else ⌈q⌉ := by
  unfold castInt
  split
  · next h =>
    rw [Rat.floor_def, Int.tdiv_eq_ediv (Rat.num_nonneg.mpr h) (Int.ofNat_nonneg _)]
  · next h =>
    have hn : 0 ≤ -q.num := by
      have := Rat.num_neg.mpr (not_le.mp h)
      omega
    have hc : ⌈q⌉ = -⌊-q⌋ := by rw [Int.floor_neg, neg_neg]
    rw [hc, Rat.floor_def, Rat.neg_num, Rat.neg_den, ← Int.tdiv_eq_ediv hn (Int.ofNat_nonneg _),
      Int.neg_tdiv, neg_neg]

theorem castInt_neg (q : ℚ) : castInt (-q) = -castInt q := by
  unfold castInt
  rw [Rat.neg_num, Rat.neg_den, Int.neg_tdiv]

theorem toInt32_neg_of_natAbs_lt (z : Int) (h : z.natAbs < 2147483648) :
    toInt32 (z * (-1)) = -z := by
  unfold toInt32
  omega

theorem acc_of_eq_abs (y : Int) (h1 : -32768 ≤ y) (h2 : y ≤ 32767) : acc_of y = |y| := by
  unfold acc_of toInt32
  split
  · next h => rw [abs_of_neg h]; omega
  · next h => rw [abs_of_nonneg (not_lt.mp h)]

theorem click_frame_bytes (acc : Int) :
    click_frame acc = if acc > 17000 then [2, 0, (acc % 65536 / 256).toNat, 255] else [] := by
  unfold click_frame
  rw [high_byte_eq]
  rfl

theorem mpu6050_task_body_out {F Q A : Type} (P : Platform F Q A) (ahrs : A) (raw : RawSample) :
    (mpu6050_task_body P ahrs raw).2 =
      pitch_frame (x_of P ahrs raw) ++ roll_frame (y_of P ahrs raw) ++
      click_frame (acc_of raw.accel.a1) := rfl

theorem mpu6050_task_body_bytes {F Q A : Type} (P : Platform F Q A) (ahrs : A)
    (raw : RawSample) :
    (mpu6050_task_body P ahrs raw).2 =
      [0, (x_of P ahrs raw % 65536 / 256).toNat, (x_of P ahrs raw % 256).toNat, 255,
       1, (y_of P ahrs raw % 65536 / 256).toNat, (y_of P ahrs raw % 256).toNat, 255] ++
      (if acc_of raw.accel.a1 > 17000 then
        [2, 0, (acc_of raw.accel.a1 % 65536 / 256).toNat, 255] else []) := by
  rw [mpu6050_task_body_out, pitch_frame_bytes, roll_frame_bytes, click_frame_bytes]
  rfl

theorem mpu6050_task_body_drop {F Q A : Type} (P : Platform F Q A) (ahrs : A) (raw : RawSample) :
    (mpu6050_task_body P ahrs raw).2.drop 8 = click_frame (acc_of raw.accel.a1) := by
  rw [mpu6050_task_body_out, pitch_frame_bytes, roll_frame_bytes]
  rfl

theorem mpu6050_task_snoc {F Q A : Type} (P : Platform F Q A) (buses : List BusReads)
    (bus : BusReads) :
    mpu6050_task P (buses ++ [bus]) =
      ((mpu6050_task_iteration P (mpu6050_task P buses).1 bus).1,
        (mpu6050_task P buses).2 ++ (mpu6050_task_iteration P (mpu6050_task P buses).1 bus).2) := by
  unfold mpu6050_task
  rw [List.foldl_append]
  rfl

/-! ## Click detection -/

/-- C3, as the claim states it, fails at `y = 17000`: the magnitude reaches
17000, yet the period writes only the pitch and roll frames (8 bytes, no
channel-2 frame). -/
theorem click_threshold_at_17000 :
    |(17000 : Int)| ≥ 17000 ∧
    click_frame (acc_of 17000) = [] ∧
    (mpu6050_task_body (probePlatform ⟨0, 0, 0⟩) 0 ⟨⟨0, 17000, 0⟩, ⟨0, 0, 0⟩, 0⟩).2.length = 8 := by
  refine ⟨by norm_num, by decide, ?_⟩
  rw [mpu6050_task_body_out, pitch_frame_bytes, roll_frame_bytes]
  decide

/-- C3, amended: for every signed 16-bit raw Y reading `y`, the period writes a
click frame if and only if `|y| > 17000` (strictly); 16999 and 17000 give no
click, 17001 and -17001 give one. The bytes after the pitch and roll frames
are a function of `y` alone, whatever the estimator state. -/
theorem click_threshold {F Q A : Type} (P : Platform F Q A) (ahrs : A) (raw : RawSample)
    (h1 : -32768 ≤ raw.accel.a1) (h2 : raw.accel.a1 ≤ 32767) :
    ((mpu6050_task_body P ahrs raw).2.drop 8 ≠ [] ↔ |raw.accel.a1| > 17000) ∧
    (mpu6050_task_body P ahrs raw).2.drop 8 = click_frame (acc_of raw.accel.a1) ∧
    click_frame (acc_of 16999) = [] ∧ click_frame (acc_of 17000) = [] ∧
    click_frame (acc_of 17001) ≠ [] ∧ click_frame (acc_of (-17001)) ≠ [] := by
  refine ⟨?_, mpu6050_task_body_drop P ahrs raw, by decide, by decide, ?_, ?_⟩
  · rw [mpu6050_task_body_drop, acc_of_eq_abs _ h1 h2, click_frame_bytes]
    split <;> simp_all
  · rw [click_frame_bytes]; decide
  · rw [click_frame_bytes]; decide

/-- Witness of C3 (amended) at `y = -17001`. -/
theorem click_threshold_witness :
    ((mpu6050_task_body (probePlatform ⟨0, 0, 0⟩) 0 ⟨⟨0, -17001, 0⟩, ⟨0, 0, 0⟩, 0⟩).2.drop 8 ≠ []
      ↔ |(-17001 : Int)| > 17000) ∧
    (mpu6050_task_body (probePlatform ⟨0, 0, 0⟩) 0 ⟨⟨0, -17001, 0⟩, ⟨0, 0, 0⟩, 0⟩).2.drop 8 =
      click_frame (acc_of (-17001)) ∧
    click_frame (acc_of 16999) = [] ∧ click_frame (acc_of 17000) = [] ∧
    click_frame (acc_of 17001) ≠ [] ∧ click_frame (acc_of (-17001)) ≠ [] :=
  click_threshold (probePlatform ⟨0, 0, 0⟩) 0 ⟨⟨0, -17001, 0⟩, ⟨0, 0, 0⟩, 0⟩
    (by decide) (by decide)

/-- C4, as the claim states it, fails at `y = 17001`: a click is written, and
byte 2 of its frame is 66 (bits 15..8 of 17001), not `17001 mod 256 = 105`. -/
theorem click_low_byte_at_17001 :
    click_frame (acc_of 17001) = [2, 0, 66, 255] ∧ |(17001 : Int)| % 256 = 105 := by
  refine ⟨?_, by norm_num⟩
  rw [click_frame_bytes]
  decide

/-- C4, amended: for every signed 16-bit raw Y reading `y` that triggers a
click (`|y| > 17000`), the click frame is `[2, 0, b, 0xFF]` where byte 1 is 0
and byte 2 is `b` = bits 15..8 of `|y|`, which is `|y| / 256`. -/
theorem click_frame_value (y : Int) (h1 : -32768 ≤ y) (h2 : y ≤ 32767) (h : |y| > 17000) :
    click_frame (acc_of y) = [2, 0, (|y| % 65536 / 256).toNat, 0xFF] ∧
    |y| % 65536 / 256 = |y| / 256 := by
  rw [acc_of_eq_abs y h1 h2, click_frame_bytes, if_pos h]
  refine ⟨rfl, ?_⟩
  have h3 : |y| ≤ 32768 := abs_le.mpr ⟨by omega, by omega⟩
  omega

/-- Witness of C4 (amended) at `y = -20000`. -/
theorem click_frame_value_witness :
    click_frame (acc_of (-20000)) = [2, 0, (|(-20000 : Int)| % 65536 / 256).toNat, 0xFF] ∧
    |(-20000 : Int)| % 65536 / 256 = |(-20000 : Int)| / 256 :=
  click_frame_value (-20000) (by decide) (by decide) (by norm_num)

/-- C10: for every signed 16-bit raw Y reading `y`, `-32768` included, `acc` is
the mathematical `|y|` and lies in `[0, 32768]` (no wrap in the 32-bit `int`);
whenever the click frame is written, its data byte `(acc >> 8) & 0xFF` lies
in `[66, 128]` and is byte 2 of that frame. -/
theorem acc_no_overflow (y : Int) (h1 : -32768 ≤ y) (h2 : y ≤ 32767) :
    acc_of y = |y| ∧ 0 ≤ acc_of y ∧ acc_of y ≤ 32768 ∧ acc_of (-32768) = 32768 ∧
    (click_frame (acc_of y) ≠ [] →
      66 ≤ Int.land (acc_of y >>> (8 : Nat)) 0xFF ∧ Int.land (acc_of y >>> (8 : Nat)) 0xFF ≤ 128 ∧
      click_frame (acc_of y) = [2, 0, (Int.land (acc_of y >>> (8 : Nat)) 0xFF).toNat, 0xFF]) := by
  have ha := acc_of_eq_abs y h1 h2
  have h0 : 0 ≤ acc_of y := ha ▸ abs_nonneg y
  have h3 : acc_of y ≤ 32768 := ha ▸ abs_le.mpr ⟨by omega, by omega⟩
  refine ⟨ha, h0, h3, by decide, ?_⟩
  intro hc
  rw [click_frame_bytes] at hc ⊢
  have hgt : acc_of y > 17000 := by
    by_contra hn
    exact hc (if_neg hn)
  rw [if_pos hgt, land_255_eq_emod, shiftRight_8_eq_ediv]
  refine ⟨by omega, by omega, ?_⟩
  congr 3
  omega

/-- Witness of C10 at `y = -32768`. -/
theorem acc_no_overflow_witness :
    acc_of (-32768) = |(-32768 : Int)| ∧ 0 ≤ acc_of (-32768) ∧ acc_of (-32768) ≤ 32768 ∧
    acc_of (-32768) = 32768 ∧
    (click_frame (acc_of (-32768)) ≠ [] →
      66 ≤ Int.land (acc_of (-32768) >>> (8 : Nat)) 0xFF ∧
      Int.land (acc_of (-32768) >>> (8 : Nat)) 0xFF ≤ 128 ∧
      click_frame (acc_of (-32768)) =
        [2, 0, (Int.land (acc_of (-32768) >>> (8 : Nat)) 0xFF).toNat, 0xFF]) :=
  acc_no_overflow (-32768) (by decide) (by decide)

/-! ## One sampling period -/

/-- C5: the bytes written in one period are the pitch frame (channel 0), then
the roll frame (channel 1), then, exactly when the click branch is taken, one
click frame (channel 2) whose high byte is 0; so 8 or 12 bytes are written,
every byte at an offset 0 mod 4 is a channel id 0, 1 or 2, and every byte at
an offset 3 mod 4 is `0xFF`. -/
theorem period_stream_shape {F Q A : Type} (P : Platform F Q A) (ahrs : A) (raw : RawSample) :
    (mpu6050_task_body P ahrs raw).2 =
      pitch_frame (x_of P ahrs raw) ++ roll_frame (y_of P ahrs raw) ++
        (if acc_of raw.accel.a1 > 17000 then
          [2, 0, (acc_of raw.accel.a1 % 65536 / 256).toNat, 0xFF] else []) ∧
    ((mpu6050_task_body P ahrs raw).2.length = 8 ∨
      (mpu6050_task_body P ahrs raw).2.length = 12) ∧
    ((mpu6050_task_body P ahrs raw).2.length = 12 ↔ acc_of raw.accel.a1 > 17000) ∧
    (∀ i, i < (mpu6050_task_body P ahrs raw).2.length → i % 4 = 0 →
      (mpu6050_task_body P ahrs raw).2.getD i 0 = i / 4 ∧ i / 4 ≤ 2) ∧
    (∀ i, i < (mpu6050_task_body P ahrs raw).2.length → i % 4 = 3 →
      (mpu6050_task_body P ahrs raw).2.getD i 0 = 0xFF) := by
  refine ⟨?_, ?_⟩
  · rw [mpu6050_task_body_out, click_frame_bytes]
  · rw [mpu6050_task_body_bytes]
    by_cases hc : acc_of raw.accel.a1 > 17000
    · rw [if_pos hc]
      refine ⟨Or.inr rfl, ⟨fun _ => hc, fun _ => rfl⟩, ?_, ?_⟩
      · intro i hi hm
        have hi12 : i < 12 := hi
        interval_cases i <;> simp_all
      · intro i hi hm
        have hi12 : i < 12 := hi
        interval_cases i <;> simp_all
    · rw [if_neg hc]
      refine ⟨Or.inl rfl, ⟨fun h => absurd h (by simp), fun h => absurd h hc⟩, ?_, ?_⟩
      · intro i hi hm
        have hi8 : i < 8 := hi
        interval_cases i <;> simp_all
      · intro i hi hm
        have hi8 : i < 8 := hi
        interval_cases i <;> simp_all

/-- C6: with `p` and `r` the Euler pitch and roll after the update (finite, of
integer part inside the range of `int`), `x = -trunc p` and `y = -trunc r`,
where `trunc` rounds toward zero, and these equal `trunc (-p)` and
`trunc (-r)`; the first frame of the period is channel 0 carrying `x` (from
the pitch) and the second is channel 1 carrying `y` (from the roll). -/
theorem sign_convention {F Q A : Type} (P : Platform F Q A) (ahrs : A) (raw : RawSample)
    (hp : (castInt (euler_after P ahrs raw).1).natAbs < 2147483648)
    (hr : (castInt (euler_after P ahrs raw).2).natAbs < 2147483648) :
    x_of P ahrs raw = -castInt (euler_after P ahrs raw).1 ∧
    y_of P ahrs raw = -castInt (euler_after P ahrs raw).2 ∧
    x_of P ahrs raw = castInt (-(euler_after P ahrs raw).1) ∧
    y_of P ahrs raw = castInt (-(euler_after P ahrs raw).2) ∧
    castInt (euler_after P ahrs raw).1 =
      (if 0 ≤ (euler_after P ahrs raw).1 then ⌊(euler_after P ahrs raw).1⌋
        else ⌈(euler_after P ahrs raw).1⌉) ∧
    castInt (euler_after P ahrs raw).2 =
      (if 0 ≤ (euler_after P ahrs raw).2 then ⌊(euler_after P ahrs raw).2⌋
        else ⌈(euler_after P ahrs raw).2⌉) ∧
    (mpu6050_task_body P ahrs raw).2.take 4 =
      [0, (-castInt (euler_after P ahrs raw).1 % 65536 / 256).toNat,
        (-castInt (euler_after P ahrs raw).1 % 256).toNat, 0xFF] ∧
    ((mpu6050_task_body P ahrs raw).2.drop 4).take 4 =
      [1, (-castInt (euler_after P ahrs raw).2 % 65536 / 256).toNat,
        (-castInt (euler_after P ahrs raw).2 % 256).toNat, 0xFF] := by
  have hx : x_of P ahrs raw = -castInt (euler_after P ahrs raw).1 :=
    toInt32_neg_of_natAbs_lt _ hp
  have hy : y_of P ahrs raw = -castInt (euler_after P ahrs raw).2 :=
    toInt32_neg_of_natAbs_lt _ hr
  refine ⟨hx, hy, ?_, ?_, castInt_eq_floor_ceil _, castInt_eq_floor_ceil _, ?_, ?_⟩
  · rw [hx, castInt_neg]
  · rw [hy, castInt_neg]
  · rw [mpu6050_task_body_bytes, hx]
    rfl
  · rw [mpu6050_task_body_bytes, hy]
    rfl

/-- Witness of C6 with pitch `-5/2` and roll `7/2`: `x = 2`, `y = -3`. -/
theorem sign_convention_witness :
    x_of (probePlatform ⟨mkRat 7 2, mkRat (-5) 2, 0⟩) 0 ⟨⟨0, 0, 0⟩, ⟨0, 0, 0⟩, 0⟩ = 2 ∧
    y_of (probePlatform ⟨mkRat 7 2, mkRat (-5) 2, 0⟩) 0 ⟨⟨0, 0, 0⟩, ⟨0, 0, 0⟩, 0⟩ = -3 ∧
    (mpu6050_task_body (probePlatform ⟨mkRat 7 2, mkRat (-5) 2, 0⟩) 0
      ⟨⟨0, 0, 0⟩, ⟨0, 0, 0⟩, 0⟩).2.take 4 = [0, 0, 2, 255] ∧
    ((mpu6050_task_body (probePlatform ⟨mkRat 7 2, mkRat (-5) 2, 0⟩) 0
      ⟨⟨0, 0, 0⟩, ⟨0, 0, 0⟩, 0⟩).2.drop 4).take 4 = [1, 255, 253, 255] := by
  have h := sign_convention (probePlatform ⟨mkRat 7 2, mkRat (-5) 2, 0⟩) 0
    ⟨⟨0, 0, 0⟩, ⟨0, 0, 0⟩, 0⟩ (by decide) (by decide)
  refine ⟨h.1.trans (by decide), h.2.1.trans (by decide), h.2.2.2.2.2.2.1.trans (by decide),
    h.2.2.2.2.2.2.2.trans (by decide)⟩

/-! ## Bus errors -/

/-- C7, as the claim states it, fails on a period in which every bus call
reports an error: the estimator update is still run (the probe counts one
update) and the pitch and roll frames are still written. -/
theorem bus_error_not_skipped :
    failedBus.failed ∧
    (mpu6050_task_iteration (probePlatform ⟨0, 0, 0⟩) 0 failedBus).1 = 1 ∧
    (mpu6050_task_iteration (probePlatform ⟨0, 0, 0⟩) 0 failedBus).2 =
      [0, 0, 0, 255, 1, 0, 0, 255] := by
  refine ⟨Or.inl (Or.inl (by decide)), rfl, ?_⟩
  unfold mpu6050_task_iteration
  rw [mpu6050_task_body_bytes]
  decide

/-- C7, amended: the loop does not look at the result of the sensor read. In
a period whose read fails, the estimator update is still run once, on the
values converted from what `buffer` holds after the reads, and the pitch and
roll frames are still written (at least 8 bytes); the period does what a
period with a successful read leaving the same buffer contents does. -/
theorem bus_error_ignored {F Q A : Type} (P : Platform F Q A) (ahrs : A) (bus : BusReads)
    (hf : bus.failed) :
    (mpu6050_task_iteration P ahrs bus).1 =
      P.FusionAhrsUpdateNoMagnetometer ahrs (gyroscope_of P (mpu6050_read_raw bus).gyro)
        (accelerometer_of P (mpu6050_read_raw bus).accel) P.SAMPLE_PERIOD ∧
    (mpu6050_task_iteration P ahrs bus).2.take 8 =
      pitch_frame (x_of P ahrs (mpu6050_read_raw bus)) ++
        roll_frame (y_of P ahrs (mpu6050_read_raw bus)) ∧
    8 ≤ (mpu6050_task_iteration P ahrs bus).2.length ∧
    mpu6050_task_iteration P ahrs bus =
      mpu6050_task_iteration P ahrs
        ⟨⟨1, 6, bus.accel.buffer⟩, ⟨1, 6, bus.gyro.buffer⟩, ⟨1, 2, bus.temp.buffer⟩⟩ ∧
    ¬ BusReads.failed
        ⟨⟨1, 6, bus.accel.buffer⟩, ⟨1, 6, bus.gyro.buffer⟩, ⟨1, 2, bus.temp.buffer⟩⟩ := by
  have _ := hf
  refine ⟨rfl, ?_, ?_, rfl, ?_⟩
  · unfold mpu6050_task_iteration
    rw [mpu6050_task_body_out, pitch_frame_bytes, roll_frame_bytes]
    rfl
  · unfold mpu6050_task_iteration
    rw [mpu6050_task_body_bytes]
    simp
  · unfold BusReads.failed I2cTransfer.failed
    simp

/-- Witness of C7 (amended) on the period in which every bus call fails. -/
theorem bus_error_ignored_witness :
    failedBus.failed ∧
    8 ≤ (mpu6050_task_iteration (probePlatform ⟨0, 0, 0⟩) 0 failedBus).2.length ∧
    (mpu6050_task_iteration (probePlatform ⟨0, 0, 0⟩) 0 failedBus).1 = 1 :=
  ⟨Or.inl (Or.inl (by decide)),
    (bus_error_ignored (probePlatform ⟨0, 0, 0⟩) 0 failedBus (Or.inl (Or.inl (by decide)))).2.2.1,
    (bus_error_ignored (probePlatform ⟨0, 0, 0⟩) 0 failedBus
      (Or.inl (Or.inl (by decide)))).1.trans rfl⟩

/-! ## Unit conversion -/

theorem roundHalfEven_intCast (n : Int) : roundHalfEven (n : ℚ) = n := by
  unfold roundHalfEven
  simp

theorem abs_roundHalfEven_sub_le (x : ℚ) : |(roundHalfEven x : ℚ) - x| ≤ 1 / 2 := by
  have h0 := Int.floor_le x
  have h1 := Int.lt_floor_add_one x
  unfold roundHalfEven
  rw [abs_le]
  split
  · constructor <;> linarith
  · split
    · push_cast
      constructor <;> linarith
    · split
      · constructor <;> linarith
      · push_cast
        constructor <;> linarith

theorem round32_exact (q : ℚ) (h : IsBinary32 q) : val32 (round32 q) = q := by
  obtain ⟨m, e, hm, he1, he2, rfl⟩ := h
  by_cases hm0 : m = 0
  · subst hm0
    simp [round32, val32, roundHalfEven]
  have h2 : (0 : ℚ) < 2 := by norm_num
  have hpos : 0 < |(m : ℚ) * 2 ^ e| := by
    rw [abs_pos]
    exact mul_ne_zero (by exact_mod_cast hm0) (zpow_ne_zero _ (by norm_num))
  have hlog : Int.log 2 |(m : ℚ) * 2 ^ e| - 23 ≤ e := by
    have h1 := Int.zpow_log_le_self (b := 2) (by norm_num) hpos
    have h3 : |(m : ℚ) * 2 ^ e| < 2 ^ (24 + e) := by
      rw [abs_mul, abs_of_pos (zpow_pos h2 e), zpow_add₀ (by norm_num)]
      apply mul_lt_mul_of_pos_right _ (zpow_pos h2 e)
      have hc : ((|m| : Int) : ℚ) < ((2 ^ 24 : Int) : ℚ) := by exact_mod_cast hm
      rw [Int.cast_abs] at hc
      calc |(m : ℚ)| < ((2 ^ 24 : Int) : ℚ) := hc
        _ = (2 : ℚ) ^ (24 : Int) := by norm_num
    have h4 : ((2 : ℕ) : ℚ) ^ Int.log 2 |(m : ℚ) * 2 ^ e| < (2 : ℚ) ^ (24 + e) :=
      lt_of_le_of_lt h1 h3
    have h5 : Int.log 2 |(m : ℚ) * 2 ^ e| < 24 + e := by
      have h6 : (2 : ℚ) ^ Int.log 2 |(m : ℚ) * 2 ^ e| < (2 : ℚ) ^ (24 + e) := by
        exact_mod_cast h4
      exact (zpow_lt_zpow_iff_right₀ (by norm_num)).mp h6
    omega
  have hle : max (Int.log 2 |(m : ℚ) * 2 ^ e| - 23) (-149) ≤ e := max_le hlog he1
  unfold round32 val32
  simp only
  generalize max (Int.log 2 |(m : ℚ) * 2 ^ e| - 23) (-149) = s at hle
  obtain ⟨d, rfl⟩ : ∃ d : Nat, e = s + d := ⟨(e - s).toNat, by omega⟩
  have hq : (m : ℚ) * 2 ^ (s + (d : Int)) / 2 ^ s = ((m * 2 ^ d : Int) : ℚ) := by
    rw [zpow_add₀ (by norm_num)]
    have hs : (2 : ℚ) ^ s ≠ 0 := zpow_ne_zero _ (by norm_num)
    field_simp
    ring
  rw [hq, roundHalfEven_intCast, zpow_add₀ (by norm_num)]
  push_cast
  simp only [zpow_natCast]
  ring

theorem round32_near (q : ℚ) (h : (2 : ℚ) ^ (-126 : Int) ≤ |q|) :
    |val32 (round32 q) - q| ≤ |q| / 2 ^ 24 := by
  have h2 : (0 : ℚ) < 2 := by norm_num
  have hpos : 0 < |q| := lt_of_lt_of_le (zpow_pos h2 _) h
  have hlog : -126 ≤ Int.log 2 |q| := by
    rw [← Int.zpow_le_iff_le_log (by norm_num) hpos]
    exact_mod_cast h
  have hs : max (Int.log 2 |q| - 23) (-149) = Int.log 2 |q| - 23 := max_eq_left (by omega)
  have h1 : (2 : ℚ) ^ Int.log 2 |q| ≤ |q| := by
    have := Int.zpow_log_le_self (b := 2) (by norm_num) hpos
    exact_mod_cast this
  unfold round32 val32
  simp only
  rw [hs]
  generalize Int.log 2 |q| = l at h1
  have hp : (0 : ℚ) < 2 ^ (l - 23) := zpow_pos h2 _
  have hr := abs_roundHalfEven_sub_le (q / 2 ^ (l - 23))
  have he : (roundHalfEven (q / 2 ^ (l - 23)) : ℚ) * 2 ^ (l - 23) - q =
      ((roundHalfEven (q / 2 ^ (l - 23)) : ℚ) - q / 2 ^ (l - 23)) * 2 ^ (l - 23) := by
    field_simp
  rw [he, abs_mul, abs_of_pos hp]
  have h3 : (2 : ℚ) ^ (l - 23) = 2 ^ l / 2 ^ 23 := by
    rw [zpow_sub₀ (by norm_num)]
    norm_num
  calc |(roundHalfEven (q / 2 ^ (l - 23)) : ℚ) - q / 2 ^ (l - 23)| * 2 ^ (l - 23)
      ≤ 1 / 2 * 2 ^ (l - 23) := mul_le_mul_of_nonneg_right hr hp.le
    _ = 2 ^ l / 2 ^ 24 := by rw [h3]; ring
    _ ≤ |q| / 2 ^ 24 := div_le_div_of_nonneg_right h1 (by norm_num)

theorem isDyadic_val32 (f : Int × Int) : IsDyadic (val32 f) := by
  obtain ⟨m, e⟩ := f
  unfold val32
  by_cases he : 0 ≤ e
  · obtain ⟨d, rfl⟩ : ∃ d : Nat, e = d := ⟨e.toNat, by omega⟩
    exact ⟨m * 2 ^ d, 0, by push_cast; simp⟩
  · obtain ⟨d, rfl⟩ : ∃ d : Nat, e = -(d : Int) := ⟨(-e).toNat, by omega⟩
    refine ⟨m, d, ?_⟩
    simp only
    rw [zpow_neg, zpow_natCast, mul_assoc, inv_mul_cancel₀ (pow_ne_zero _ (by norm_num)), mul_one]

theorem dvd_of_isDyadic_div_131 (z : Int) (h : IsDyadic ((z : ℚ) / 131)) : (131 : Int) ∣ z := by
  obtain ⟨m, k, hk⟩ := h
  have h1 : z * 2 ^ k = 131 * m := by
    have hq : (z : ℚ) * 2 ^ k = 131 * m := by
      rw [← hk]; ring
    exact_mod_cast hq
  have hp : Prime (131 : Int) := by
    rw [Int.prime_iff_natAbs_prime]
    norm_num
  rcases hp.dvd_or_dvd ⟨m, h1⟩ with h3 | h3
  · exact h3
  · have h4 := hp.dvd_of_dvd_pow h3
    norm_num at h4

theorem isBinary32_intCast (z : Int) (h1 : -32768 ≤ z) (h2 : z ≤ 32767) :
    IsBinary32 (z : ℚ) :=
  ⟨z, 0, by rw [abs_lt]; constructor <;> omega, by norm_num, by norm_num, by simp⟩

theorem isBinary32_div_16384 (z : Int) (h1 : -32768 ≤ z) (h2 : z ≤ 32767) :
    IsBinary32 ((z : ℚ) / 16384) :=
  ⟨z, -14, by rw [abs_lt]; constructor <;> omega, by norm_num, by norm_num, by
    rw [zpow_neg]; norm_num; ring⟩

theorem binary32Platform_arith : binary32Platform.Binary32Arith := by
  refine ⟨?_, ?_, ?_, ?_, ?_, ?_⟩
  · intro z h1 h2
    exact round32_exact _ (isBinary32_intCast z h1 h2)
  · show val32 (131, 0) = 131
    simp [val32]
  · show val32 (16384, 0) = 16384
    simp [val32]
  · exact isDyadic_val32
  · intro a b _ h
    exact round32_exact _ h
  · intro a b _ h _
    exact round32_near _ h

theorem accelerometer_component {F Q A : Type} (P : Platform F Q A) (hP : P.Binary32Arith)
    (z : Int) (h1 : -32768 ≤ z) (h2 : z ≤ 32767) :
    P.val (P.fdiv (P.ofInt z) P.lit16384) = (z : ℚ) / 16384 := by
  obtain ⟨hof, _, h16, _, hex, _⟩ := hP
  have hq : P.val (P.ofInt z) / P.val P.lit16384 = (z : ℚ) / 16384 := by rw [hof z h1 h2, h16]
  rw [hex _ _ (by rw [h16]; norm_num) (by rw [hq]; exact isBinary32_div_16384 z h1 h2), hq]

theorem gyroscope_component_iff {F Q A : Type} (P : Platform F Q A) (hP : P.Binary32Arith)
    (z : Int) (h1 : -32768 ≤ z) (h2 : z ≤ 32767) :
    P.val (P.fdiv (P.ofInt z) P.lit131) = (z : ℚ) / 131 ↔ (131 : Int) ∣ z := by
  obtain ⟨hof, h131, _, hdy, hex, _⟩ := hP
  have hq : P.val (P.ofInt z) / P.val P.lit131 = (z : ℚ) / 131 := by rw [hof z h1 h2, h131]
  constructor
  · intro h
    apply dvd_of_isDyadic_div_131
    rw [← h]
    exact hdy _
  · rintro ⟨k, rfl⟩
    have hk : ((131 * k : Int) : ℚ) / 131 = (k : ℚ) := by push_cast; field_simp
    rw [hex _ _ (by rw [h131]; norm_num)
      (by rw [hq, hk]; exact isBinary32_intCast k (by omega) (by omega)), hq]

theorem gyroscope_component_near {F Q A : Type} (P : Platform F Q A) (hP : P.Binary32Arith)
    (z : Int) (h1 : -32768 ≤ z) (h2 : z ≤ 32767) :
    |P.val (P.fdiv (P.ofInt z) P.lit131) - (z : ℚ) / 131| ≤ |(z : ℚ) / 131| / 2 ^ 24 := by
  by_cases hz : z = 0
  · subst hz
    rw [(gyroscope_component_iff P hP 0 (by norm_num) (by norm_num)).mpr (dvd_zero _)]
    simp
  obtain ⟨hof, h131, _, _, _, hnear⟩ := hP
  have hq : P.val (P.ofInt z) / P.val P.lit131 = (z : ℚ) / 131 := by rw [hof z h1 h2, h131]
  have habs : |(z : ℚ) / 131| = |(z : ℚ)| / 131 := by
    rw [abs_div]; norm_num
  have hz1 : (1 : ℚ) ≤ |(z : ℚ)| := by
    have : (1 : Int) ≤ |z| := Int.one_le_abs hz
    exact_mod_cast this
  have hz2 : |(z : ℚ)| ≤ 32768 := by
    have : |z| ≤ 32768 := abs_le.mpr ⟨by omega, by omega⟩
    exact_mod_cast this
  have hlo : (2 : ℚ) ^ (-126 : Int) ≤ |(z : ℚ) / 131| := by
    rw [habs]
    calc (2 : ℚ) ^ (-126 : Int) ≤ 1 / 131 := by
          rw [zpow_neg]; norm_num
      _ ≤ |(z : ℚ)| / 131 := by
          apply div_le_div_of_nonneg_right hz1; norm_num
  have hhi : |(z : ℚ) / 131| ≤ (2 ^ 24 - 1) * (2 : ℚ) ^ (104 : Int) := by
    rw [habs]
    calc |(z : ℚ)| / 131 ≤ 32768 / 131 := by
          apply div_le_div_of_nonneg_right hz2; norm_num
      _ ≤ (2 ^ 24 - 1) * (2 : ℚ) ^ (104 : Int) := by norm_num
  have h := hnear (P.ofInt z) P.lit131 (by rw [h131]; norm_num) (by rw [hq]; exact hlo)
    (by rw [hq]; exact hhi)
  rw [hq] at h
  exact h

theorem round32_one_div_131 : val32 (round32 (1 / 131)) = 16393005 / 2147483648 := by
  have hpos : (0 : ℚ) < |1 / 131| := by norm_num
  have hl : Int.log 2 |(1 / 131 : ℚ)| = -8 := by
    apply le_antisymm
    · have h : Int.log 2 |(1 / 131 : ℚ)| < -7 := by
        rw [← Int.lt_zpow_iff_log_lt (by norm_num) hpos]
        rw [zpow_neg]; norm_num
        rw [abs_of_pos (by norm_num)]; norm_num
      omega
    · rw [← Int.zpow_le_iff_le_log (by norm_num) hpos]
      rw [zpow_neg]; norm_num
      rw [abs_of_pos (by norm_num)]; norm_num
  have hf : ⌊(2147483648 / 131 : ℚ)⌋ = 16393004 := by
    rw [Int.floor_eq_iff]
    constructor <;> norm_num
  have hr : roundHalfEven (2147483648 / 131 : ℚ) = 16393005 := by
    unfold roundHalfEven
    rw [hf]
    norm_num
  unfold round32 val32
  simp only
  rw [hl]
  have hx : (1 / 131 : ℚ) / 2 ^ max (-8 - 23 : Int) (-149) = 2147483648 / 131 := by
    have hm : max (-8 - 23 : Int) (-149) = -31 := by norm_num
    rw [hm, zpow_neg]; norm_num
  rw [hx, hr]
  have hm : max (-8 - 23 : Int) (-149) = -31 := by norm_num
  rw [hm, zpow_neg]; norm_num

/-- C8, as the claim states it, fails at raw gyro `{1, 0, 0}`: with binary32
division the X rate is `1.0f / 131.0f = 16393005 / 2 ^ 31`, which is not
`1 / 131`; and on no platform with binary32 arithmetic is it `1 / 131`, since
every float is a dyadic rational. -/
theorem gyro_one_not_exact :
    binary32Platform.val (gyroscope_of binary32Platform ⟨1, 0, 0⟩).x =
      16393005 / 2147483648 ∧
    (16393005 / 2147483648 : ℚ) ≠ 1 / 131 ∧
    ¬ ∃ (F Q A : Type) (P : Platform F Q A),
      P.Binary32Arith ∧ P.val (gyroscope_of P ⟨1, 0, 0⟩).x = ((1 : Int) : ℚ) / 131 := by
  refine ⟨?_, by norm_num, ?_⟩
  · show val32 (round32 (val32 (round32 ((1 : Int) : ℚ)) / val32 (131, 0))) = _
    rw [round32_exact _ (isBinary32_intCast 1 (by norm_num) (by norm_num))]
    have h131 : val32 (131, 0) = 131 := by simp [val32]
    rw [h131]
    simpa using round32_one_div_131
  · rintro ⟨F, Q, A, P, hP, h⟩
    have hd := (gyroscope_component_iff P hP 1 (by norm_num) (by norm_num)).mp h
    norm_num at hd

/-- C8, amended: on a target with IEEE 754 binary32 arithmetic, for every raw
sample (components in the `int16_t` range) each acceleration component in g
equals exactly the raw value divided by 16384; each angular-rate component in
degrees/second is the binary32 quotient of the raw value by `131.0f`, which
equals the raw value divided by 131 exactly if and only if 131 divides the raw
value, and is otherwise within relative error `2 ^ (-24)` of it. Axes are kept
in the order x, y, z. Raw accel `{16384, 0, 0}` converts to `{1, 0, 0}` g and
raw gyro `{131, 0, 0}` to `{1, 0, 0}` degrees/second. -/
theorem unit_conversion {F Q A : Type} (P : Platform F Q A) (hP : P.Binary32Arith)
    (raw : RawSample) (ha : raw.accel.InRange) (hg : raw.gyro.InRange) :
    (P.val (accelerometer_of P raw.accel).x = (raw.accel.a0 : ℚ) / 16384 ∧
      P.val (accelerometer_of P raw.accel).y = (raw.accel.a1 : ℚ) / 16384 ∧
      P.val (accelerometer_of P raw.accel).z = (raw.accel.a2 : ℚ) / 16384) ∧
    ((P.val (gyroscope_of P raw.gyro).x = (raw.gyro.a0 : ℚ) / 131 ↔ (131 : Int) ∣ raw.gyro.a0) ∧
      (P.val (gyroscope_of P raw.gyro).y = (raw.gyro.a1 : ℚ) / 131 ↔
        (131 : Int) ∣ raw.gyro.a1) ∧
      (P.val (gyroscope_of P raw.gyro).z = (raw.gyro.a2 : ℚ) / 131 ↔
        (131 : Int) ∣ raw.gyro.a2)) ∧
    (|P.val (gyroscope_of P raw.gyro).x - (raw.gyro.a0 : ℚ) / 131| ≤
        |(raw.gyro.a0 : ℚ) / 131| / 2 ^ 24 ∧
      |P.val (gyroscope_of P raw.gyro).y - (raw.gyro.a1 : ℚ) / 131| ≤
        |(raw.gyro.a1 : ℚ) / 131| / 2 ^ 24 ∧
      |P.val (gyroscope_of P raw.gyro).z - (raw.gyro.a2 : ℚ) / 131| ≤
        |(raw.gyro.a2 : ℚ) / 131| / 2 ^ 24) ∧
    (P.val (accelerometer_of P ⟨16384, 0, 0⟩).x = 1 ∧
      P.val (accelerometer_of P ⟨16384, 0, 0⟩).y = 0 ∧
      P.val (accelerometer_of P ⟨16384, 0, 0⟩).z = 0) ∧
    (P.val (gyroscope_of P ⟨131, 0, 0⟩).x = 1 ∧
      P.val (gyroscope_of P ⟨131, 0, 0⟩).y = 0 ∧
      P.val (gyroscope_of P ⟨131, 0, 0⟩).z = 0) := by
  obtain ⟨⟨a0l, a0h⟩, ⟨a1l, a1h⟩, ⟨a2l, a2h⟩⟩ := ha
  obtain ⟨⟨g0l, g0h⟩, ⟨g1l, g1h⟩, ⟨g2l, g2h⟩⟩ := hg
  refine ⟨⟨accelerometer_component P hP _ a0l a0h, accelerometer_component P hP _ a1l a1h,
      accelerometer_component P hP _ a2l a2h⟩,
    ⟨gyroscope_component_iff P hP _ g0l g0h, gyroscope_component_iff P hP _ g1l g1h,
      gyroscope_component_iff P hP _ g2l g2h⟩,
    ⟨gyroscope_component_near P hP _ g0l g0h, gyroscope_component_near P hP _ g1l g1h,
      gyroscope_component_near P hP _ g2l g2h⟩, ⟨?_, ?_, ?_⟩, ⟨?_, ?_, ?_⟩⟩
  · have h := accelerometer_component P hP 16384 (by norm_num) (by norm_num)
    rw [show ((16384 : Int) : ℚ) / 16384 = 1 by norm_num] at h
    exact h
  · have h := accelerometer_component P hP 0 (by norm_num) (by norm_num)
    rw [show ((0 : Int) : ℚ) / 16384 = 0 by norm_num] at h
    exact h
  · have h := accelerometer_component P hP 0 (by norm_num) (by norm_num)
    rw [show ((0 : Int) : ℚ) / 16384 = 0 by norm_num] at h
    exact h
  · have h := (gyroscope_component_iff P hP 131 (by norm_num) (by norm_num)).mpr (dvd_refl _)
    rw [show ((131 : Int) : ℚ) / 131 = 1 by norm_num] at h
    exact h
  · have h := (gyroscope_component_iff P hP 0 (by norm_num) (by norm_num)).mpr (dvd_zero _)
    rw [show ((0 : Int) : ℚ) / 131 = 0 by norm_num] at h
    exact h
  · have h := (gyroscope_component_iff P hP 0 (by norm_num) (by norm_num)).mpr (dvd_zero _)
    rw [show ((0 : Int) : ℚ) / 131 = 0 by norm_num] at h
    exact h

/-- Witness of C8 (amended) on the binary32 platform, at raw accel
`{16384, -300, 7}` and raw gyro `{262, 1, -131}`. -/
theorem unit_conversion_witness :
    binary32Platform.Binary32Arith ∧
    Int16x3.InRange ⟨16384, -300, 7⟩ ∧ Int16x3.InRange ⟨262, 1, -131⟩ ∧
    binary32Platform.val (accelerometer_of binary32Platform ⟨16384, -300, 7⟩).y =
      ((-300 : Int) : ℚ) / 16384 ∧
    (binary32Platform.val (gyroscope_of binary32Platform ⟨262, 1, -131⟩).y =
      ((1 : Int) : ℚ) / 131 ↔ (131 : Int) ∣ 1) ∧
    binary32Platform.val (gyroscope_of binary32Platform ⟨131, 0, 0⟩).x = 1 :=
  have h := unit_conversion binary32Platform binary32Platform_arith
    ⟨⟨16384, -300, 7⟩, ⟨262, 1, -131⟩, 0⟩
    ⟨⟨by decide, by decide⟩, ⟨by decide, by decide⟩, ⟨by decide, by decide⟩⟩
    ⟨⟨by decide, by decide⟩, ⟨by decide, by decide⟩, ⟨by decide, by decide⟩⟩
  ⟨binary32Platform_arith,
    ⟨⟨by decide, by decide⟩, ⟨by decide, by decide⟩, ⟨by decide, by decide⟩⟩,
    ⟨⟨by decide, by decide⟩, ⟨by decide, by decide⟩, ⟨by decide, by decide⟩⟩,
    h.1.2.1, h.2.1.2.1, h.2.2.2.2.1⟩

end Mpu6050
